import Mathlib

/-!
Verification of the cmdhooks command-interception framework core
(packages `interceptor`, `wrapper`, `executor`, `cmdhooks`).

The Go source is shallowly embedded: pure data flow becomes Lean
functions, Go maps (`map[string]interface{}`) become partial functions
`String → Option MetaVal`, byte streams become `List Nat`, and the
effectful collaborators (JSON parsing, the user hook's evaluation
functions, the real `exec` of the child) are passed in as explicit
function parameters, exactly where the Go code calls out to them.
-/

namespace CmdHooks

/-- Values stored in a `metadata` map (`map[string]interface{}` in Go).
Only the shapes the core itself writes are distinguished: strings
(captured-output file names), durations in nanoseconds
(`execution_duration`), and integers. -/
inductive MetaVal where
  | vstr (s : String)
  | vint (n : Int)
  | vdur (n : Int)
  deriving DecidableEq, Repr

/-- A Go string-keyed map, as a partial function. A `nil` Go map and an
empty Go map are extensionally the same function. -/
def MetaMap := String → Option MetaVal

/-- The empty (or nil) metadata map. -/
def mEmpty : MetaMap := fun _ => none

/-- Model of `maps.Copy dst src` followed by reading the result: the
source's binding wins where present, otherwise the destination's. -/
def mCopy (dst src : MetaMap) : MetaMap :=
  fun k => match src k with
    | some v => some v
    | none => dst k

/-- Model of `m[k] = v` on a Go map. -/
def minsert (m : MetaMap) (k : String) (v : MetaVal) : MetaMap :=
  fun x => if x = k then some v else m x

/-- `hook.Request` (pkg/hook/types.go). `Hook` is a string type
(`HookType`); `Duration` is `time.Duration`, i.e. nanoseconds. -/
structure Request where
  command : List String
  pid : Int
  hook : String
  exitCode : Int
  duration : Int
  metadata : MetaMap

/-- `hook.Response` (pkg/hook/types.go). -/
structure Response where
  exit : Bool
  metadata : MetaMap

/-- `hook.HookPreRun`. -/
def hookPreRun : String := "pre_run"

/-- `hook.HookPostRun`. -/
def hookPostRun : String := "post_run"

/-! ## Interceptor (pkg/interceptor/interceptor.go, src/unnamed/part_009) -/

/-- `MaxIPCMessageBytes = 64 * 1024`. -/
def maxIPCMessageBytes : Nat := 64 * 1024

/-- Ten minutes in nanoseconds: the `evaluateTimeout` installed by
`interceptor.New` (`evaluateTimeout: 10 * time.Minute`). -/
def defaultEvaluateTimeout : Int := 600000000000

/-- The `evaluateTimeout` field value right after `interceptor.New`. -/
def newInterceptorTimeout : Int := defaultEvaluateTimeout

/-- `Interceptor.SetEvaluateTimeout` (part_009 lines 802-807): the stored
timeout is overridden only when the argument is strictly positive;
otherwise the call leaves the field unchanged. -/
def setEvaluateTimeout (d : Int) (evaluateTimeout : Int) : Int :=
  if d > 0 then d else evaluateTimeout

/-- The per-evaluation bound `processRequest` actually uses (part_009
lines 926-931): a non-positive stored timeout is replaced by ten
minutes, and `context.WithTimeout` is always called with the result, so
the bound is `some _` on every path. `none` would model an unbounded
evaluation (a context with no deadline), which the code never builds. -/
def processTimeout (evaluateTimeout : Int) : Option Int :=
  some (if evaluateTimeout ≤ 0 then defaultEvaluateTimeout else evaluateTimeout)

/-- The interceptor-side view of the current hook: either it implements
`hook.IPCHook` (its `EvaluateIPC` is the given function, errors modelled
by `Except`), or it does not (`basic`, which also covers a nil hook). -/
inductive HookM where
  | ipc (eval : Request → Except Unit Response)
  | basic

/-- The `hookRequest` copy built at the top of `processRequest`
(part_009 lines 917-924); a field-by-field copy of the request. -/
def hookRequestCopy (req : Request) : Request :=
  { command := req.command, pid := req.pid, hook := req.hook,
    exitCode := req.exitCode, duration := req.duration,
    metadata := req.metadata }

/-- The `response` local variable of `Interceptor.processRequest`
(part_009 lines 936-952): `EvaluateIPC` when the hook implements
`IPCHook`, with an evaluation error collapsed to `exit=true`; a hook
without `IPCHook` default-allows (`exit=false`). -/
def innerResponse (h : HookM) (req : Request) : Response :=
  match h with
  | .ipc eval =>
    match eval (hookRequestCopy req) with
    | .ok r => r
    | .error _ => { exit := true, metadata := mEmpty }
  | .basic => { exit := false, metadata := mEmpty }

/-- The `resp` value that `processRequest` returns to the connection
handler (part_009 lines 954-956): `resp := &hook.Response{Exit:
response.Exit}` — only the exit flag is copied, the metadata field is
left at its zero value (nil). `processRequest` returns a nil error on
every path. -/
def processRequest (h : HookM) (req : Request) : Response :=
  { exit := (innerResponse h req).exit, metadata := mEmpty }

/-- The guarded `close(i.exitSignal)` (part_009 lines 960-965): a select
with a default skips the close when the channel is already closed. The
channel is modelled by its closed flag. -/
def closeExitSignal (closed : Bool) : Bool :=
  if closed then closed else true

/-- The exit-signal state after `processRequest` finishes (part_009
lines 958-966): the signal is closed exactly when the evaluation asked
for exit, and an already-closed signal stays closed. -/
def processRequestSignal (h : HookM) (req : Request) (closed : Bool) : Bool :=
  if (innerResponse h req).exit then closeExitSignal closed else closed

/-- The exit-signal state after a sequence of connections has been
processed, starting from the given state. -/
def runSession (h : HookM) (reqs : List Request) (closed : Bool) : Bool :=
  reqs.foldl (fun c r => processRequestSignal h r c) closed

/-- Position of the first newline byte in a stream, as the scanner's
`bufio.ScanLines` split function would find it. -/
def findNL : List Nat → Option Nat
  | [] => none
  | b :: rest => if b == 10 then some 0 else (findNL rest).map (· + 1)

/-- `dropCR` of `bufio.ScanLines`: a single trailing carriage return is
stripped from the token. -/
def dropCR (l : List Nat) : List Nat :=
  if l.getLast? = some 13 then l.dropLast else l

/-- One `bufio.Scanner.Scan` with `ScanLines` on a connection whose full
byte stream is `s`, with `scanner.Buffer(make([]byte, 0, 64*1024),
MaxIPCMessageBytes)` (part_009 lines 844-846): both the buffer capacity
and the maximum token size are 65536 bytes. A newline at index `i` is
found only if the `i+1` bytes up to and including it fit the buffer
(`i < 65536`); otherwise the buffer fills with no token and `Scan`
fails with `ErrTooLong`. Without any newline, end of stream yields the
remainder as a final token if it is nonempty and fits, an empty stream
yields no token, and a remainder of 65536 bytes or more overflows
before end of stream is observed. -/
def scanLine (s : List Nat) : Option (List Nat) :=
  match findNL s with
  | some i => if i < maxIPCMessageBytes then some (dropCR (s.take i)) else none
  | none =>
    if s.length = 0 then none
    else if s.length < maxIPCMessageBytes then some (dropCR s)
    else none

/-- The `exit=true` response the handler writes on any failure
(part_009 lines 855-857 and 872-874). -/
def errResponse : Response := { exit := true, metadata := mEmpty }

/-- `readRequest` (part_009 lines 892-901) composed with the JSON
decoder: scan one line, then unmarshal it. `json.Unmarshal` is the
`parse` parameter. -/
def readRequestM (parse : List Nat → Option Request) (input : List Nat) : Option Request :=
  (scanLine input).bind parse

/-- `Interceptor.handleConnection` (part_009 lines 840-889), as the list
of response lines written to the connection before it is closed. A
read or parse failure is answered with `errResponse`; otherwise the
single `processRequest` response is written. (`processRequest` returns
a nil error on every path, so the handler's second error branch cannot
fire.) -/
def handleConnection (parse : List Nat → Option Request) (h : HookM)
    (input : List Nat) : List Response :=
  match readRequestM parse input with
  | none => [errResponse]
  | some req => [processRequest h req]

/-! ## Wrapper (pkg/wrapper, src/unnamed/part_009 lines 978-1457) -/

/-- The wrapper-side view of `w.Hook`: either it implements
`hook.LocalHook` (with its `Commands()` list and `EvaluateLocal`), or it
does not (including a nil hook, the `cmdhooks run` case). -/
inductive WHook where
  | noLocal
  | localHook (commands : List String) (evalLocal : Request → Except Unit Response)

/-- `wrapper.WrapperCommand` (part_009 lines 1016-1020). -/
structure WrapperCommand where
  hook : WHook
  socketPath : String
  verbose : Bool

/-- `WrapperCommand.hookHandlesCommand` (part_009 lines 1117-1124):
exact match against each entry, with the single wildcard entry `*`. -/
def hookHandlesCommand (hookCommands : List String) (requestCommand : String) : Bool :=
  hookCommands.any (fun cmd => cmd == requestCommand || cmd == "*")

/-- `WrapperCommand.evaluateLocalHook` (part_009 lines 1127-1148):
`ok none` when the hook has no local capability or does not handle the
invoked name; otherwise the local evaluation's result, with its error
propagated. -/
def evaluateLocalHook (w : WrapperCommand) (req : Request) :
    Except Unit (Option Response) :=
  match w.hook with
  | .noLocal => .ok none
  | .localHook commands evalLocal =>
    match req.command with
    | [] => .ok none
    | c0 :: _ =>
      if hookHandlesCommand commands c0 then
        match evalLocal req with
        | .ok r => .ok (some r)
        | .error e => .error e
      else .ok none

/-- The `ipcReq` built by `WrapperCommand.evaluateIPCHook` (part_009
lines 1160-1178): the merged metadata starts from a fresh map, copies
the incoming request's metadata, then copies the local response's
metadata over it (local values override on key conflicts); every other
field is passed through unchanged. -/
def mergedIPCRequest (req : Request) (localResponse : Option Response) : Request :=
  let m0 := mCopy mEmpty req.metadata
  let mergedMetadata :=
    match localResponse with
    | some lr => mCopy m0 lr.metadata
    | none => m0
  { command := req.command, pid := req.pid, hook := req.hook,
    exitCode := req.exitCode, duration := req.duration,
    metadata := mergedMetadata }

/-- `WrapperCommand.evaluateIPCHook` (part_009 lines 1151-1185), with
`runHook` (the socket round trip, lines 1425-1457) abstracted as `runH`:
skipped (`ok none`) when no socket path is configured, otherwise the
interceptor's response for the merged request, errors propagated. -/
def evaluateIPCHook (w : WrapperCommand) (runH : Request → Except Unit Response)
    (req : Request) (localResponse : Option Response) :
    Except Unit (Option Response) :=
  if w.socketPath = "" then .ok none
  else
    match runH (mergedIPCRequest req localResponse) with
    | .ok r => .ok (some r)
    | .error e => .error e

/-- `WrapperCommand.evaluateHooks` (part_009 lines 1188-1219): local
stage first; a local `exit=true` short-circuits; otherwise the IPC
stage's response when it ran, else the local response when there was
one, else the default-allow response. -/
def evaluateHooks (w : WrapperCommand) (runH : Request → Except Unit Response)
    (req : Request) : Except Unit Response :=
  match evaluateLocalHook w req with
  | .error e => .error e
  | .ok localResponse =>
    match localResponse with
    | some lr =>
      if lr.exit then .ok lr
      else
        match evaluateIPCHook w runH req localResponse with
        | .error e => .error e
        | .ok (some ipcResponse) => .ok ipcResponse
        | .ok none => .ok lr
    | none =>
      match evaluateIPCHook w runH req none with
      | .error e => .error e
      | .ok (some ipcResponse) => .ok ipcResponse
      | .ok none => .ok { exit := false, metadata := mEmpty }

/-- The request built by `WrapperCommand.executePreRun` (part_009 lines
1306-1312): phase `pre_run`, the wrapper's pid, the shared metadata map
(still empty at this point), and zero values for the post-run fields. -/
def preRunRequest (command : List String) (pid : Int) : Request :=
  { command := command, pid := pid, hook := hookPreRun,
    exitCode := 0, duration := 0, metadata := mEmpty }

/-- The metadata mutation of `WrapperCommand.executePostRun` (part_009
lines 1336-1343): `stdout_file` and `stderr_file` are set only when the
respective file name is nonempty, and `execution_duration` is always
set. -/
def postRunMetadata (metadata : MetaMap) (duration : Int)
    (stdoutFile stderrFile : String) : MetaMap :=
  let m1 := if stdoutFile ≠ "" then minsert metadata "stdout_file" (.vstr stdoutFile) else metadata
  let m2 := if stderrFile ≠ "" then minsert m1 "stderr_file" (.vstr stderrFile) else m1
  minsert m2 "execution_duration" (.vdur duration)

/-- The request built by `WrapperCommand.executePostRun` (part_009
lines 1345-1352). -/
def postRunRequest (command : List String) (pid : Int) (metadata : MetaMap)
    (exitCode : Int) (duration : Int) (stdoutFile stderrFile : String) : Request :=
  { command := command, pid := pid, hook := hookPostRun,
    exitCode := exitCode, duration := duration,
    metadata := postRunMetadata metadata duration stdoutFile stderrFile }

/-- What `WrapperCommand.executeCommand` hands back to `Run`: the exit
code, the two capture file names, and whether a non-nil error was
returned. -/
structure ExecOutcome where
  exitCode : Int
  stdoutFile : String
  stderrFile : String
  failed : Bool

/-- `WrapperCommand.executeCommand` (part_009 lines 1233-1303) with the
`exec.LookPath` result on the cleaned PATH and the child's run modelled
as parameters. A failed lookup returns exit code 1, empty file names
and a non-nil error (lines 1246-1248); otherwise the child runs with
output captured to the two temp files and a nil error is returned even
for a non-zero child exit (lines 1292-1302). Temp-file creation
failures are not modelled. -/
def executeCommand (lookPathResult : Option String) (childExit : Int)
    (stdoutName stderrName : String) : ExecOutcome :=
  match lookPathResult with
  | none => { exitCode := 1, stdoutFile := "", stderrFile := "", failed := true }
  | some _ => { exitCode := childExit, stdoutFile := stdoutName, stderrFile := stderrName, failed := false }

/-- How one `WrapperCommand.Run` invocation ends. `exited code` is the
`os.Exit(code)` in `outputResults` (part_009 lines 1390-1392); the
`Failed` outcomes are the non-nil error returns of `Run`, which the
`cmdhooks run` front end turns into a fatal nonzero exit. -/
inductive RunOutcome where
  | invalidCommand
  | preRunFailed
  | postRunFailed
  | exited (code : Int)
  | returnedErr
  | returnedOk
  deriving DecidableEq, Repr

/-- `WrapperCommand.Run` (part_009 lines 1068-1114), returning the
requests passed to `evaluateHooks` in order together with the outcome.
The shared metadata map is created empty; the pre-run stage reads it
before `executePostRun` mutates it. `duration` is the measured elapsed
time around `executeCommand`. -/
def wrapperRun (w : WrapperCommand) (runH : Request → Except Unit Response)
    (command : List String) (pid : Int) (exec : ExecOutcome) (duration : Int) :
    List Request × RunOutcome :=
  match command with
  | [] => ([], .invalidCommand)
  | _ :: _ =>
    let preReq := preRunRequest command pid
    match evaluateHooks w runH preReq with
    | .error _ => ([preReq], .preRunFailed)
    | .ok r =>
      if r.exit then ([preReq], .preRunFailed)
      else
        let postReq := postRunRequest command pid mEmpty exec.exitCode duration
          exec.stdoutFile exec.stderrFile
        match evaluateHooks w runH postReq with
        | .error _ => ([preReq, postReq], .postRunFailed)
        | .ok r2 =>
          if r2.exit then ([preReq, postReq], .postRunFailed)
          else if exec.exitCode ≠ 0 then ([preReq, postReq], .exited exec.exitCode)
          else if exec.failed then ([preReq, postReq], .returnedErr)
          else ([preReq, postReq], .returnedOk)

/-! ## Controller: wrapper materialization (pkg/cmdhooks, src/unnamed/part_008)
and child environment (pkg/executor, src/unnamed/part_003) -/

/-- `cmdhooks.shellQuote`'s replacement `strings.ReplaceAll(s, "'",
"'\\''")` (part_008 line 213): every single quote becomes
quote-backslash-quote-quote. -/
def escapeQuote : List Char → List Char
  | [] => []
  | c :: cs =>
    if c = '\'' then '\'' :: '\\' :: '\'' :: '\'' :: escapeQuote cs
    else c :: escapeQuote cs

/-- `cmdhooks.shellQuote` (part_008 lines 204-214): the empty string
quotes to two single quotes; otherwise the escaped body is wrapped in
single quotes. -/
def shellQuote (s : List Char) : List Char :=
  if s = [] then ['\'', '\'']
  else '\'' :: (escapeQuote s ++ ['\''])

/-- `strings.Join(parts, " ")`. -/
def joinSp : List (List Char) → List Char
  | [] => []
  | [w] => w
  | w :: ws => w ++ ' ' :: joinSp ws

/-- The `wrapperExec` line emitted into each wrapper script by
`CmdHooks.createWrappers` (part_008 lines 176-182): every element of
the wrapper invocation vector and the monitored command name,
individually shell-quoted and joined by single spaces, followed by the
literal ` "$@"`. -/
def wrapperExecLine (wrapperCmd : List (List Char)) (command : List Char) : List Char :=
  joinSp ((wrapperCmd.map shellQuote) ++ [shellQuote command]) ++
    (' ' :: '"' :: '$' :: '@' :: ['"'])

/-- POSIX shell metacharacters (plus whitespace) that are interpreted
when they appear unquoted: tab, newline, space, `"`, `#`, `$`, `&`,
`(`, `)`, `*`, `;`, `<`, `>`, `?`, `[`, `]`, backquote, `|`, `~`,
given by character code. -/
def isShellSpecial (c : Char) : Bool :=
  ([9, 10, 32, 34, 35, 36, 38, 40, 41, 42, 59, 60, 62, 63, 91, 93, 96, 124, 126] : List Nat).contains c.toNat

/-- A POSIX-style reading of one shell word, used to give meaning to
the generated exec line. The Bool is the inside-single-quotes state.
Outside quotes a space ends the word, a backslash escapes the next
character, any other unquoted metacharacter makes the word unsafe
(`none`), and inside single quotes every character is literal. The
result is the word's value and the unconsumed rest of the input. -/
def parseWordAux : List Char → Bool → Option (List Char × List Char)
  | [], true => none
  | [], false => some ([], [])
  | c :: cs, true =>
    if c = '\'' then parseWordAux cs false
    else (parseWordAux cs true).map (fun p => (c :: p.1, p.2))
  | c :: cs, false =>
    if c = ' ' then some ([], c :: cs)
    else if c = '\'' then parseWordAux cs true
    else if c = '\\' then
      match cs with
      | [] => none
      | d :: ds => (parseWordAux ds false).map (fun p => (d :: p.1, p.2))
    else if isShellSpecial c then none
    else (parseWordAux cs false).map (fun p => (c :: p.1, p.2))
  termination_by s _ => s.length

/-- Fuelled word-list reading: words separated by single spaces. -/
def parseWordsAux : Nat → List Char → Option (List (List Char))
  | _, [] => some []
  | 0, _ :: _ => none
  | fuel + 1, c :: cs =>
    match parseWordAux (c :: cs) false with
    | none => none
    | some (w, rest) =>
      match rest with
      | [] => some [w]
      | r :: rs =>
        if r = ' ' then (parseWordsAux fuel rs).map (fun ws => w :: ws)
        else none

/-- Reading of a whole space-separated shell word list. -/
def parseWords (s : List Char) : Option (List (List Char)) :=
  parseWordsAux (s.length + 1) s

/-- The five characters `PATH=`. -/
def pathKey : List Char := ['P', 'A', 'T', 'H', '=']

/-- The fallback value appended when the environment has no PATH entry
(part_003 line 108), without its leading `PATH=<wrapperdir>`. -/
def defaultPathTail : List Char := (":/usr/bin:/bin:/usr/local/bin").data

/-- `Executor.modifyPath` (part_003 lines 96-110): the first entry with
the `PATH=` prefix is rewritten to put the wrapper directory in front,
separated by a colon, and the scan stops there; if no entry matches,
a default PATH entry is appended. -/
def modifyPath (wrapperPath : List Char) : List (List Char) → List (List Char)
  | [] => [pathKey ++ wrapperPath ++ defaultPathTail]
  | e :: rest =>
    if pathKey.isPrefixOf e then
      (pathKey ++ wrapperPath ++ ':' :: e.drop 5) :: rest
    else e :: modifyPath wrapperPath rest

/-! ## Claim theorems -/

/-- C1: the spec (and the call-site comment in `cmdhooks.New`, part_008
lines 73-74, and the `Config` doc in one source revision) say a
non-positive interceptor timeout disables the per-evaluation bound.
The interceptor contradicts this: `SetEvaluateTimeout` ignores any
non-positive argument, leaving the 10-minute default in place, and
`processRequest` replaces a non-positive stored timeout by 10 minutes,
so every evaluation context carries a positive bound and the bound is
never disabled. -/
theorem c1_nonpositive_timeout_not_disabled :
    setEvaluateTimeout 0 newInterceptorTimeout = defaultEvaluateTimeout ∧
    setEvaluateTimeout (-1) newInterceptorTimeout = defaultEvaluateTimeout ∧
    processTimeout 0 = some defaultEvaluateTimeout ∧
    processTimeout (-1) = some defaultEvaluateTimeout ∧
    ∀ t : Int, ∃ b : Int, processTimeout t = some b ∧ 0 < b := by
  refine ⟨by simp [setEvaluateTimeout, newInterceptorTimeout],
    by simp [setEvaluateTimeout, newInterceptorTimeout],
    by simp [processTimeout], by simp [processTimeout], fun t => ?_⟩
  by_cases ht : t ≤ 0
  · exact ⟨defaultEvaluateTimeout, by simp [processTimeout, ht],
      by norm_num [defaultEvaluateTimeout]⟩
  · exact ⟨t, by simp [processTimeout, ht], by omega⟩

/-- A concrete request used to exhibit claim C2's failure. -/
def c2Request : Request :=
  { command := ["curl", "https://example.com"], pid := 123, hook := hookPreRun,
    exitCode := 0, duration := 0, metadata := mEmpty }

/-- A nonempty metadata map returned by the hook in the C2 scenario. -/
def c2Metadata : MetaMap := minsert mEmpty "k" (.vstr "v")

/-- An `EvaluateIPC` that allows the request and returns metadata. -/
def c2Eval : Request → Except Unit Response :=
  fun _ => .ok { exit := false, metadata := c2Metadata }

/-- C2 counterexample: a remote evaluation returns `exit=false` with a
nonempty metadata map, yet the response the handler writes back drops
that metadata entirely — `processRequest` copies only the exit flag
(part_009 lines 954-956) — so the metadata is not observable by the
wrapper. -/
theorem c2_counterexample :
    (innerResponse (.ipc c2Eval) c2Request).exit = false ∧
    (innerResponse (.ipc c2Eval) c2Request).metadata "k" = some (.vstr "v") ∧
    (processRequest (.ipc c2Eval) c2Request).metadata "k" = none ∧
    handleConnection (fun _ => some c2Request) (.ipc c2Eval) [10] =
      [processRequest (.ipc c2Eval) c2Request] := by
  refine ⟨rfl, ?_, rfl, rfl⟩
  show c2Metadata "k" = some (.vstr "v")
  simp [c2Metadata, minsert]

/-- C2 amended: whatever the remote evaluation returns, the response
the interceptor writes back carries only its exit flag; the metadata
field of the written response is empty on every path, so metadata
returned from a remote evaluation is never observable by the wrapper. -/
theorem c2_response_metadata_dropped :
    ∀ (h : HookM) (req : Request),
      (processRequest h req).exit = (innerResponse h req).exit ∧
      ∀ k, (processRequest h req).metadata k = none :=
  fun _ _ => ⟨rfl, fun _ => rfl⟩

/-- C4: for every accepted connection the handler writes exactly one
newline-terminated response; a failure to read or parse the request is
answered with `exit=true`, and an error returned by the remote hook
evaluation is collapsed to `exit=true` inside `processRequest`, so no
error escapes the handler. -/
theorem c4_handler_single_response :
    ∀ (parse : List Nat → Option Request) (h : HookM) (input : List Nat),
      (handleConnection parse h input).length = 1 ∧
      (readRequestM parse input = none →
        handleConnection parse h input = [errResponse] ∧ errResponse.exit = true) ∧
      (∀ (req : Request) (eval : Request → Except Unit Response) (e : Unit),
        readRequestM parse input = some req → h = .ipc eval →
        eval (hookRequestCopy req) = .error e →
        handleConnection parse h input = [{ exit := true, metadata := mEmpty }]) := by
  intro parse h input
  refine ⟨?_, ?_, ?_⟩
  · unfold handleConnection
    cases readRequestM parse input <;> rfl
  · intro hnone
    unfold handleConnection
    rw [hnone]
    exact ⟨rfl, rfl⟩
  · intro req eval e hsome hh heval
    subst hh
    unfold handleConnection
    rw [hsome]
    show [processRequest (.ipc eval) req] = _
    unfold processRequest innerResponse
    simp [heval]

/-- Witness for C4 at concrete inputs: an empty stream is answered with
the single `exit=true` response, and a parsed request whose remote
evaluation errors is answered with the single `exit=true` response. -/
theorem c4_witness :
    handleConnection (fun _ => none) .basic [] = [errResponse] ∧
    handleConnection (fun _ => some c2Request) (.ipc (fun _ => .error ())) [10] =
      [{ exit := true, metadata := mEmpty }] :=
  ⟨((c4_handler_single_response (fun _ => none) .basic []).2.1 rfl).1,
   (c4_handler_single_response (fun _ => some c2Request)
      (.ipc (fun _ => .error ())) [10]).2.2 c2Request (fun _ => .error ()) ()
      rfl rfl rfl⟩

/-- C5: when the current hook does not implement `hook.IPCHook`, every
successfully parsed request is answered with the default-allow
response `exit=false`, whatever its command, pid or phase. -/
theorem c5_non_ipc_default_allow :
    ∀ (req : Request),
      processRequest HookM.basic req = { exit := false, metadata := mEmpty } ∧
      ∀ (parse : List Nat → Option Request) (input : List Nat),
        readRequestM parse input = some req →
        handleConnection parse HookM.basic input =
          [{ exit := false, metadata := mEmpty }] := by
  intro req
  refine ⟨rfl, fun parse input hsome => ?_⟩
  unfold handleConnection
  rw [hsome]
  rfl

/-- Witness for C5: a concrete `post_run` request parsed from a
concrete stream is answered with `exit=false` by a non-IPC hook. -/
theorem c5_witness :
    handleConnection
      (fun _ => some { command := ["wget"], pid := 9, hook := hookPostRun,
                       exitCode := 42, duration := 5, metadata := mEmpty })
      HookM.basic [10] = [{ exit := false, metadata := mEmpty }] :=
  (c5_non_ipc_default_allow _).2 _ [10] rfl

/-- C7: an evaluation whose response has `exit=true` leaves the abort
signal closed when `processRequest` returns; a closed signal stays
closed through any further request (the guarded `close` is idempotent
and never fails), and over any whole session the signal is monotone:
once raised it remains raised. -/
theorem c7_exit_signal_monotone :
    ∀ (h : HookM) (req : Request) (closed : Bool),
      ((processRequest h req).exit = true → processRequestSignal h req closed = true) ∧
      (closed = true → processRequestSignal h req closed = true) ∧
      closeExitSignal true = true ∧
      ∀ (reqs : List Request), runSession h reqs true = true := by
  intro h req closed
  have step : ∀ (r : Request), processRequestSignal h r true = true := by
    intro r
    unfold processRequestSignal closeExitSignal
    cases (innerResponse h r).exit <;> simp
  refine ⟨?_, ?_, rfl, ?_⟩
  · intro hexit
    have : (innerResponse h req).exit = true := hexit
    unfold processRequestSignal closeExitSignal
    rw [this]
    cases closed <;> simp
  · intro hc; subst hc; exact step req
  · intro reqs
    induction reqs with
    | nil => rfl
    | cons r rs ih =>
      show runSession h rs (processRequestSignal h r true) = true
      rw [step r]
      exact ih

/-- Witness for C7: a concrete denying evaluation raises the signal
from the open state, and it stays raised across a further session. -/
theorem c7_witness :
    processRequestSignal (.ipc (fun _ => .ok { exit := true, metadata := mEmpty }))
      c2Request false = true ∧
    runSession (.ipc (fun _ => .ok { exit := true, metadata := mEmpty }))
      [c2Request, c2Request] true = true :=
  ⟨(c7_exit_signal_monotone _ c2Request false).1 rfl,
   (c7_exit_signal_monotone _ c2Request false).2.2.2 [c2Request, c2Request]⟩

/-- Position of the first newline in `c ++ [10]` when `c` itself has
none: the scanner finds it right after the content. -/
theorem findNL_append_nl (c : List Nat) (h : ∀ b ∈ c, b ≠ 10) :
    findNL (c ++ [10]) = some c.length := by
  induction c with
  | nil => simp [findNL]
  | cons b cs ih =>
    have hb : (b == 10) = false := by
      simp [h b (by simp)]
    have ih' := ih (fun x hx => h x (by simp [hx]))
    show findNL (b :: (cs ++ [10])) = some (cs.length + 1)
    unfold findNL
    rw [hb]
    show (findNL (cs ++ [10])).map (· + 1) = _
    rw [ih']
    rfl

/-- C3: a request line, counted with its terminating newline as in the
POSIX definition of a text line, is accepted by the connection handler
at exactly 65,536 bytes — the scanner's buffer (capacity and maximum
token size both `MaxIPCMessageBytes`) holds the 65,535 content bytes
plus the newline, and the scan yields the content — while a line of
65,537 bytes overflows the buffer before the newline is seen, the scan
fails, and the handler answers with the `exit=true` response. -/
theorem c3_line_length_boundary :
    ∀ (content : List Nat) (parse : List Nat → Option Request) (h : HookM),
      (∀ b ∈ content, b ≠ 10) →
      ((content ++ [10]).length = 65536 →
        scanLine (content ++ [10]) = some (dropCR content)) ∧
      ((content ++ [10]).length = 65537 →
        handleConnection parse h (content ++ [10]) = [errResponse] ∧
        errResponse.exit = true) := by
  intro content parse h hnl
  have hfind := findNL_append_nl content hnl
  constructor
  · intro hlen
    have hc : content.length = 65535 := by
      simpa using hlen
    unfold scanLine
    rw [hfind]
    show (if content.length < maxIPCMessageBytes then
        some (dropCR ((content ++ [10]).take content.length)) else none) = _
    rw [if_pos (by rw [hc]; norm_num [maxIPCMessageBytes]), List.take_left]
  · intro hlen
    have hc : content.length = 65536 := by
      simpa using hlen
    have hscan : scanLine (content ++ [10]) = none := by
      unfold scanLine
      rw [hfind]
      show (if content.length < maxIPCMessageBytes then
          some (dropCR ((content ++ [10]).take content.length)) else none) = none
      rw [if_neg (by rw [hc]; norm_num [maxIPCMessageBytes])]
    refine ⟨?_, rfl⟩
    unfold handleConnection readRequestM
    rw [hscan]
    rfl

/-- Witness for C3 at the two boundary lengths: a 65,536-byte line of
65,535 letters `A` plus the newline is scanned successfully, and the
65,537-byte line is answered with the `exit=true` response. -/
theorem c3_witness :
    scanLine (List.replicate 65535 65 ++ [10]) =
      some (dropCR (List.replicate 65535 65)) ∧
    handleConnection (fun _ => none) .basic (List.replicate 65536 65 ++ [10]) =
      [errResponse] := by
  have h1 := (c3_line_length_boundary (List.replicate 65535 65) (fun _ => none) .basic
    (by intro b hb; rw [List.eq_of_mem_replicate hb]; norm_num)).1
    (by rw [List.length_append, List.length_replicate]; rfl)
  have h2 := (c3_line_length_boundary (List.replicate 65536 65) (fun _ => none) .basic
    (by intro b hb; rw [List.eq_of_mem_replicate hb]; norm_num)).2
    (by rw [List.length_append, List.length_replicate]; rfl)
  exact ⟨h1, h2.1⟩

/-- C6: whenever the remote stage runs (a socket path is configured),
the request it sends to the interceptor passes `command`, `pid`,
`hook`, `exit_code` and `duration` through unchanged, and its metadata
is the incoming request's metadata merged with the local stage's
returned metadata, the local value winning on every key conflict; the
stage's result is exactly the interceptor's answer for that merged
request. -/
theorem c6_ipc_request_merge :
    ∀ (w : WrapperCommand) (runH : Request → Except Unit Response)
      (req : Request) (lr : Option Response),
      w.socketPath ≠ "" →
      (∀ r', runH (mergedIPCRequest req lr) = .ok r' →
        evaluateIPCHook w runH req lr = .ok (some r')) ∧
      (∀ e, runH (mergedIPCRequest req lr) = .error e →
        evaluateIPCHook w runH req lr = .error e) ∧
      (mergedIPCRequest req lr).command = req.command ∧
      (mergedIPCRequest req lr).pid = req.pid ∧
      (mergedIPCRequest req lr).hook = req.hook ∧
      (mergedIPCRequest req lr).exitCode = req.exitCode ∧
      (mergedIPCRequest req lr).duration = req.duration ∧
      ∀ k, (mergedIPCRequest req lr).metadata k =
        Option.or (lr.bind fun r => r.metadata k) (req.metadata k) := by
  intro w runH req lr hsock
  refine ⟨?_, ?_, rfl, rfl, rfl, rfl, rfl, ?_⟩
  · intro r' hr'
    unfold evaluateIPCHook
    rw [if_neg hsock, hr']
  · intro e he
    unfold evaluateIPCHook
    rw [if_neg hsock, he]
  · intro k
    show (match lr with
      | some r => mCopy (mCopy mEmpty req.metadata) r.metadata
      | none => mCopy mEmpty req.metadata) k = _
    cases lr with
    | none =>
      show mCopy mEmpty req.metadata k = Option.or none (req.metadata k)
      unfold mCopy mEmpty Option.or
      cases req.metadata k <;> rfl
    | some r =>
      show mCopy (mCopy mEmpty req.metadata) r.metadata k =
        Option.or (r.metadata k) (req.metadata k)
      unfold mCopy mEmpty Option.or
      cases r.metadata k <;> cases req.metadata k <;> rfl

/-- A concrete wrapper state, incoming metadata and local response used
to witness C6: the incoming request carries keys `a` and `b`, the local
response overrides `b` and adds `c`. -/
def c6Wrapper : WrapperCommand :=
  { hook := .noLocal, socketPath := "/tmp/cmdhooks.sock", verbose := false }

/-- The incoming request of the C6 witness. -/
def c6Request : Request :=
  { command := ["curl", "x"], pid := 7, hook := hookPreRun, exitCode := 0,
    duration := 0,
    metadata := minsert (minsert mEmpty "a" (.vint 1)) "b" (.vint 2) }

/-- The local stage's response in the C6 witness. -/
def c6Local : Response :=
  { exit := false, metadata := minsert (minsert mEmpty "b" (.vint 9)) "c" (.vint 3) }

/-- Witness for C6: on the concrete inputs the merged request keeps the
pass-through fields and resolves the key conflict on `b` in favour of
the local stage while keeping `a` from the request and `c` from the
local stage. -/
theorem c6_witness :
    (mergedIPCRequest c6Request (some c6Local)).command = ["curl", "x"] ∧
    (mergedIPCRequest c6Request (some c6Local)).metadata "a" = some (.vint 1) ∧
    (mergedIPCRequest c6Request (some c6Local)).metadata "b" = some (.vint 9) ∧
    (mergedIPCRequest c6Request (some c6Local)).metadata "c" = some (.vint 3) ∧
    evaluateIPCHook c6Wrapper (fun _ => .ok { exit := false, metadata := mEmpty })
      c6Request (some c6Local) = .ok (some { exit := false, metadata := mEmpty }) := by
  have h := c6_ipc_request_merge c6Wrapper
    (fun _ => .ok { exit := false, metadata := mEmpty }) c6Request (some c6Local)
    (by decide)
  refine ⟨h.2.2.1, ?_, ?_, ?_, h.1 _ rfl⟩
  · rw [h.2.2.2.2.2.2.2 "a"]
    show Option.or (c6Local.metadata "a") (c6Request.metadata "a") = _
    rfl
  · rw [h.2.2.2.2.2.2.2 "b"]
    show Option.or (c6Local.metadata "b") (c6Request.metadata "b") = _
    rfl
  · rw [h.2.2.2.2.2.2.2 "c"]
    show Option.or (c6Local.metadata "c") (c6Request.metadata "c") = _
    rfl

/-- A list is a Boolean prefix of itself followed by anything. -/
theorem isPrefixOf_append_self (p t : List Char) :
    p.isPrefixOf (p ++ t) = true := by
  induction p with
  | nil => cases t <;> rfl
  | cons a as ih => simp [List.isPrefixOf, ih]

/-- C9: for every environment, `modifyPath` rewrites the first `PATH=`
entry to put the wrapper directory in front of the previous value,
separated by a colon, leaving every other entry untouched in place;
when no `PATH=` entry exists it appends
`PATH=<wrapperdir>:/usr/bin:/bin:/usr/local/bin` and changes nothing
else. -/
theorem c9_modify_path :
    ∀ (w : List Char) (env : List (List Char)),
      ((∀ e ∈ env, pathKey.isPrefixOf e = false) →
        modifyPath w env = env ++ [pathKey ++ w ++ defaultPathTail]) ∧
      (∀ (pre : List (List Char)) (v : List Char) (post : List (List Char)),
        env = pre ++ (pathKey ++ v) :: post →
        (∀ x ∈ pre, pathKey.isPrefixOf x = false) →
        modifyPath w env = pre ++ (pathKey ++ w ++ ':' :: v) :: post) := by
  intro w env
  constructor
  · intro hnone
    induction env with
    | nil => rfl
    | cons e rest ih =>
      have he : pathKey.isPrefixOf e = false := hnone e (by simp)
      show modifyPath w (e :: rest) = _
      unfold modifyPath
      rw [he]
      simp only [Bool.false_eq_true, if_false, List.cons_append, List.cons.injEq,
        true_and]
      exact ih (fun x hx => hnone x (by simp [hx]))
  · intro pre v post henv hpre
    subst henv
    induction pre with
    | nil =>
      show modifyPath w ((pathKey ++ v) :: post) = _
      unfold modifyPath
      rw [isPrefixOf_append_self]
      simp only [if_true, List.nil_append, List.cons.injEq, and_true, true_and]
      rw [show (5 : Nat) = pathKey.length from rfl, List.drop_left]
    | cons e rest ih =>
      have he : pathKey.isPrefixOf e = false := hpre e (by simp)
      show modifyPath w (e :: (rest ++ (pathKey ++ v) :: post)) = _
      unfold modifyPath
      rw [he]
      simp only [Bool.false_eq_true, if_false, List.cons_append, List.cons.injEq,
        true_and]
      exact ih (fun x hx => hpre x (by simp [hx]))

/-- Witness for C9 at a concrete environment: the `PATH` entry between
two other entries is rewritten in place, and an environment without a
`PATH` entry gets the default appended. -/
theorem c9_witness :
    modifyPath ("/w").data
      [("HOME=/h").data, ("PATH=/usr/bin:/bin").data, ("X=1").data] =
      [("HOME=/h").data, ("PATH=/w:/usr/bin:/bin").data, ("X=1").data] ∧
    modifyPath ("/w").data [("HOME=/h").data] =
      [("HOME=/h").data, ("PATH=/w:/usr/bin:/bin:/usr/local/bin").data] := by
  constructor
  · have h := (c9_modify_path ("/w").data
      [("HOME=/h").data, ("PATH=/usr/bin:/bin").data, ("X=1").data]).2
      [("HOME=/h").data] ("/usr/bin:/bin").data [("X=1").data]
      (by decide) (by decide)
    rw [h]
    decide
  · have h := (c9_modify_path ("/w").data [("HOME=/h").data]).1 (by decide)
    rw [h]
    decide

/-- C10: when the real program cannot be resolved on the cleaned search
path, `executeCommand` reports exit code 1, empty capture-file names
and an error; `Run` still performs the post-run evaluation, whose
request carries `exit_code` 1, phase `post_run`, and a metadata map
containing `execution_duration` but neither `stdout_file` nor
`stderr_file`; afterwards the wrapper exits with status 1. -/
theorem c10_lookup_failure_postrun :
    ∀ (w : WrapperCommand) (runH : Request → Except Unit Response)
      (command : List String) (pid d : Int),
      command ≠ [] →
      (∀ r, ∃ resp, evaluateHooks w runH r = .ok resp ∧ resp.exit = false) →
      wrapperRun w runH command pid (executeCommand none 0 "" "") d =
        ([preRunRequest command pid,
          postRunRequest command pid mEmpty 1 d "" ""], .exited 1) ∧
      (postRunRequest command pid mEmpty 1 d "" "").exitCode = 1 ∧
      (postRunRequest command pid mEmpty 1 d "" "").hook = hookPostRun ∧
      (postRunRequest command pid mEmpty 1 d "" "").metadata "execution_duration" =
        some (.vdur d) ∧
      (postRunRequest command pid mEmpty 1 d "" "").metadata "stdout_file" = none ∧
      (postRunRequest command pid mEmpty 1 d "" "").metadata "stderr_file" = none := by
  intro w runH command pid d hcmd hallow
  have hmeta : postRunMetadata mEmpty d "" "" =
      minsert mEmpty "execution_duration" (.vdur d) := by
    unfold postRunMetadata
    simp
  refine ⟨?_, rfl, rfl, ?_, ?_, ?_⟩
  · obtain ⟨c0, cs, rfl⟩ : ∃ c0 cs, command = c0 :: cs := by
      cases command with
      | nil => exact absurd rfl hcmd
      | cons c0 cs => exact ⟨c0, cs, rfl⟩
    obtain ⟨presp, hpre, hpreExit⟩ := hallow (preRunRequest (c0 :: cs) pid)
    obtain ⟨posresp, hpost, hpostExit⟩ :=
      hallow (postRunRequest (c0 :: cs) pid mEmpty 1 d "" "")
    show (match evaluateHooks w runH (preRunRequest (c0 :: cs) pid) with
      | .error _ => _ | .ok r => _) = _
    rw [hpre]
    show (if presp.exit then _ else _) = _
    rw [hpreExit]
    show (match evaluateHooks w runH (postRunRequest (c0 :: cs) pid mEmpty
        (executeCommand none 0 "" "").exitCode d
        (executeCommand none 0 "" "").stdoutFile
        (executeCommand none 0 "" "").stderrFile) with
      | .error _ => _ | .ok r2 => _) = _
    rw [show (executeCommand none 0 "" "") =
        { exitCode := 1, stdoutFile := "", stderrFile := "", failed := true } from rfl]
    rw [hpost]
    show (if posresp.exit then _ else _) = _
    rw [hpostExit]
    norm_num
  · rw [show (postRunRequest (command) pid mEmpty 1 d "" "").metadata =
      postRunMetadata mEmpty d "" "" from rfl, hmeta]
    simp [minsert]
  · rw [show (postRunRequest (command) pid mEmpty 1 d "" "").metadata =
      postRunMetadata mEmpty d "" "" from rfl, hmeta]
    simp [minsert, mEmpty]
  · rw [show (postRunRequest (command) pid mEmpty 1 d "" "").metadata =
      postRunMetadata mEmpty d "" "" from rfl, hmeta]
    simp [minsert, mEmpty]

/-- Witness for C10: a wrapper with no hook and no socket (every stage
default-allows) invoked on `curl` whose lookup fails evaluates the
post-run request with exit code 1 and only `execution_duration` in the
metadata, then exits with status 1. -/
theorem c10_witness :
    wrapperRun { hook := .noLocal, socketPath := "", verbose := false }
      (fun _ => .ok { exit := false, metadata := mEmpty })
      ["curl", "https://x"] 7 (executeCommand none 0 "" "") 5 =
      ([preRunRequest ["curl", "https://x"] 7,
        postRunRequest ["curl", "https://x"] 7 mEmpty 1 5 "" ""], .exited 1) ∧
    (postRunRequest ["curl", "https://x"] 7 mEmpty 1 5 "" "").metadata
      "execution_duration" = some (.vdur 5) := by
  have h := c10_lookup_failure_postrun
    { hook := .noLocal, socketPath := "", verbose := false }
    (fun _ => .ok { exit := false, metadata := mEmpty })
    ["curl", "https://x"] 7 5 (by simp)
    (fun r => ⟨{ exit := false, metadata := mEmpty }, rfl, rfl⟩)
  exact ⟨h.1, h.2.2.2.1⟩

/-! ## Shell-quoting lemmas for C8 -/

/-- Reading a word at the end of input or at a separating space yields
the empty word and leaves the rest untouched. -/
theorem parseWordAux_stop (rest : List Char)
    (h : rest = [] ∨ ∃ rs, rest = ' ' :: rs) :
    parseWordAux rest false = some ([], rest) := by
  rcases h with rfl | ⟨rs, rfl⟩
  · rw [parseWordAux.eq_def]
  · rw [parseWordAux.eq_def]
    simp

/-- Unfolding `escapeQuote` at a single quote. -/
theorem escapeQuote_cons_quote (cs : List Char) :
    escapeQuote ('\'' :: cs) = '\'' :: '\\' :: '\'' :: '\'' :: escapeQuote cs := by
  simp [escapeQuote]

/-- Unfolding `escapeQuote` at any other character. -/
theorem escapeQuote_cons_other (c : Char) (cs : List Char) (h : c ≠ '\'') :
    escapeQuote (c :: cs) = c :: escapeQuote cs := by
  simp [escapeQuote, h]

/-- A quote inside the quoted state closes it. -/
theorem parseWordAux_true_quote (cs : List Char) :
    parseWordAux ('\'' :: cs) true = parseWordAux cs false := by
  simp [parseWordAux]

/-- Any non-quote character inside the quoted state is literal. -/
theorem parseWordAux_true_other (c : Char) (cs : List Char) (h : c ≠ '\'') :
    parseWordAux (c :: cs) true =
      (parseWordAux cs true).map (fun p => (c :: p.1, p.2)) := by
  simp [parseWordAux, h]

/-- A quote outside the quoted state opens it. -/
theorem parseWordAux_false_quote (cs : List Char) :
    parseWordAux ('\'' :: cs) false = parseWordAux cs true := by
  rw [parseWordAux.eq_def]
  simp

/-- A backslash outside the quoted state escapes the next character. -/
theorem parseWordAux_false_backslash (d : Char) (ds : List Char) :
    parseWordAux ('\\' :: d :: ds) false =
      (parseWordAux ds false).map (fun p => (d :: p.1, p.2)) := by
  rw [parseWordAux.eq_def]
  simp

/-- Reading back the escaped body of a quoted string: consuming
`escapeQuote s` and the closing quote, starting inside quotes, yields
`s` followed by whatever the rest of the word yields. -/
theorem parseWordAux_escapeQuote (s rest : List Char) :
    parseWordAux (escapeQuote s ++ '\'' :: rest) true =
      (parseWordAux rest false).map (fun p => (s ++ p.1, p.2)) := by
  induction s with
  | nil =>
    show parseWordAux ('\'' :: rest) true = _
    rw [parseWordAux_true_quote]
    cases parseWordAux rest false with
    | none => rfl
    | some p => rfl
  | cons c cs ih =>
    by_cases hc : c = '\''
    · subst hc
      rw [escapeQuote_cons_quote, List.cons_append, List.cons_append,
        List.cons_append, List.cons_append, parseWordAux_true_quote,
        parseWordAux_false_backslash, parseWordAux_false_quote, ih]
      cases parseWordAux rest false with
      | none => rfl
      | some p => rfl
    · rw [escapeQuote_cons_other c cs hc, List.cons_append,
        parseWordAux_true_other c _ hc, ih]
      cases parseWordAux rest false with
      | none => rfl
      | some p => rfl

/-- A shell-quoted string followed by the end of input or a separating
space reads back as exactly the original string. -/
theorem parseWordAux_shellQuote (s rest : List Char)
    (h : rest = [] ∨ ∃ rs, rest = ' ' :: rs) :
    parseWordAux (shellQuote s ++ rest) false = some (s, rest) := by
  by_cases hs : s = []
  · subst hs
    show parseWordAux ('\'' :: '\'' :: rest) false = _
    rw [parseWordAux_false_quote, parseWordAux_true_quote,
      parseWordAux_stop rest h]
  · unfold shellQuote
    rw [if_neg hs, List.cons_append, List.append_assoc]
    show parseWordAux ('\'' :: (escapeQuote s ++ '\'' :: rest)) false = _
    rw [parseWordAux_false_quote, parseWordAux_escapeQuote s rest,
      parseWordAux_stop rest h]
    simp

/-- A shell-quoted string is never the empty character list. -/
theorem shellQuote_ne_nil (s : List Char) : shellQuote s ≠ [] := by
  unfold shellQuote
  by_cases hs : s = [] <;> simp [hs]

/-- Enough fuel: a word list never has more words than the joined
quoted text has characters, plus one. -/
theorem length_le_joinSp_shellQuote (parts : List (List Char)) :
    parts.length ≤ (joinSp (parts.map shellQuote)).length + 1 := by
  induction parts with
  | nil => simp
  | cons p ps ih =>
    cases ps with
    | nil => simp [joinSp]
    | cons q qs =>
      show (q :: qs).length + 1 ≤
        (shellQuote p ++ ' ' :: joinSp ((q :: qs).map shellQuote)).length + 1
      rw [List.length_append]
      simp only [List.length_cons] at ih ⊢
      omega

/-- With enough fuel, the space-joined shell-quoted parts read back as
exactly the original parts. -/
theorem parseWordsAux_joinSp (parts : List (List Char)) :
    ∀ fuel, parts.length ≤ fuel →
      parseWordsAux fuel (joinSp (parts.map shellQuote)) = some parts := by
  induction parts with
  | nil => intro fuel _; cases fuel <;> rfl
  | cons p ps ih =>
    intro fuel hf
    cases fuel with
    | zero => simp at hf
    | succ f =>
      cases hq : shellQuote p with
      | nil => exact absurd hq (shellQuote_ne_nil p)
      | cons c cs =>
        cases ps with
        | nil =>
          have hword : parseWordAux (c :: cs) false = some (p, []) := by
            rw [← hq, ← List.append_nil (shellQuote p)]
            exact parseWordAux_shellQuote p [] (Or.inl rfl)
          show parseWordsAux (f + 1) (shellQuote p) = some [p]
          rw [hq, parseWordsAux.eq_def]
          show (match parseWordAux (c :: cs) false with
            | none => none
            | some (w, rest) =>
              match rest with
              | [] => some [w]
              | r :: rs =>
                if r = ' ' then (parseWordsAux f rs).map (fun ws => w :: ws)
                else none) = some [p]
          rw [hword]
        | cons q qs =>
          have hword : parseWordAux
              (c :: (cs ++ ' ' :: joinSp ((q :: qs).map shellQuote))) false =
              some (p, ' ' :: joinSp ((q :: qs).map shellQuote)) := by
            rw [← List.cons_append, ← hq]
            exact parseWordAux_shellQuote p _ (Or.inr ⟨_, rfl⟩)
          have hrec := ih f (by simp at hf ⊢; omega)
          show parseWordsAux (f + 1)
            (shellQuote p ++ ' ' :: joinSp ((q :: qs).map shellQuote)) = _
          rw [hq, List.cons_append, parseWordsAux.eq_def]
          show (match parseWordAux
              (c :: (cs ++ ' ' :: joinSp ((q :: qs).map shellQuote))) false with
            | none => none
            | some (w, rest) =>
              match rest with
              | [] => some [w]
              | r :: rs =>
                if r = ' ' then (parseWordsAux f rs).map (fun ws => w :: ws)
                else none) = some (p :: q :: qs)
          rw [hword]
          show (if ' ' = ' ' then
            (parseWordsAux f (joinSp ((q :: qs).map shellQuote))).map
              (fun ws => p :: ws) else none) = _
          rw [if_pos rfl, hrec]
          rfl

/-- C8: the generated exec line is the space-join of the individually
shell-quoted wrapper invocation vector and monitored command name,
followed by the quoted positional-argument forward; the empty element
quotes to two single quotes; and the quoting is sound: read back under
POSIX single-quote semantics (with every unquoted metacharacter
treated as unsafe), the quoted part parses into exactly the original
elements — spaces, quotes and metacharacters inside any element
survive unchanged, with embedded single quotes escaped as
quote-backslash-quote-quote. -/
theorem c8_shell_quote_roundtrip :
    ∀ (v : List (List Char)) (n : List Char),
      wrapperExecLine v n =
        joinSp ((v ++ [n]).map shellQuote) ++ (' ' :: '"' :: '$' :: '@' :: ['"']) ∧
      parseWords (joinSp ((v ++ [n]).map shellQuote)) = some (v ++ [n]) ∧
      shellQuote [] = ['\'', '\''] ∧
      ∀ s : List Char, parseWordAux (shellQuote s) false = some (s, []) := by
  intro v n
  refine ⟨?_, ?_, rfl, ?_⟩
  · unfold wrapperExecLine
    rw [List.map_append]
    rfl
  · unfold parseWords
    exact parseWordsAux_joinSp (v ++ [n]) _
      (length_le_joinSp_shellQuote (v ++ [n]))
  · intro s
    rw [← List.append_nil (shellQuote s)]
    exact parseWordAux_shellQuote s [] (Or.inl rfl)

end CmdHooks
